import Mathlib

/-!
Verification of the real-time change-notification subsystem of the task
board: the SSE endpoint (`src/app/api/events/route.ts`), the client stream
hook (`useRealtimeUpdates`), the reconciliation merge (`KanbanBoard.tsx`)
and the store read layer (`lib/db.ts`).  All definitions are shallow
embeddings of the corresponding TypeScript functions.
-/

set_option maxRecDepth 4000

namespace SimonTasks

/-- Embeds the `Task` interface of `lib/db.ts`.  The `status` field is a
plain string because the database column is `TEXT` (the declared TypeScript
union of admissible statuses is modelled separately as
`declaredTaskStatuses`).  Numeric columns are modelled as `Int`; nullable
columns as `Option`. -/
structure Task where
  id : String
  title : String
  description : Option String
  status : String
  assignee : String
  priority : String
  due_date : Option String
  estimated_hours : Option Int
  time_spent : Int
  progress : Int
  is_blocked : Bool
  blocked_reason : Option String
  agent_context : Option String
  project_id : Option String
  created_at : String
  updated_at : String
deriving DecidableEq, Repr, Inhabited

/-- Embeds the `WatcherConfig` interface of `lib/db.ts`. -/
structure WatcherConfig where
  id : String
  is_running : Bool
  last_run : Option String
  current_task_id : Option String
  active_task_ids : String
  updated_at : String
deriving DecidableEq, Repr, Inhabited

/-- The projection `t => ({ id: t.id, status: t.status, updated_at: t.updated_at })`
used by the SSE route to build the change-detection fingerprint. -/
structure TaskTriple where
  id : String
  status : String
  updated_at : String
deriving DecidableEq, Repr, Inhabited

/-- Embeds `tasks.map(t => ({ id: t.id, status: t.status, updated_at: t.updated_at }))`
from `route.ts`. -/
def taskTriples (tasks : List Task) : List TaskTriple :=
  tasks.map fun t => ⟨t.id, t.status, t.updated_at⟩

/-! JSON serialization (`JSON.stringify`), the basis of `hashState`.
Only the string-escaping behaviour matters for the fingerprint proofs;
it is modelled character by character. -/

/-- Hexadecimal digit character for a value below 16 (used by the
`\u00XX` escapes that `JSON.stringify` emits for control characters). -/
def hexDigit (n : Nat) : Char :=
  if n < 10 then Char.ofNat (48 + n) else Char.ofNat (97 + (n - 10))

/-- Escaping of one character as performed by `JSON.stringify` inside a
JSON string literal. -/
def escChar (c : Char) : List Char :=
  if c = '"' then ['\\', '"']
  else if c = '\\' then ['\\', '\\']
  else if c = '\n' then ['\\', 'n']
  else if c = '\r' then ['\\', 'r']
  else if c = '\t' then ['\\', 't']
  else if c = Char.ofNat 8 then ['\\', 'b']
  else if c = Char.ofNat 12 then ['\\', 'f']
  else if c.toNat < 32 then
    ['\\', 'u', '0', '0', hexDigit (c.toNat / 16), hexDigit (c.toNat % 16)]
  else [c]

/-- Escaping of a character list as performed by `JSON.stringify`. -/
def escapeList (l : List Char) : List Char :=
  (l.map escChar).flatten

/-- Escaping of a whole string as performed by `JSON.stringify`. -/
def escape (s : String) : List Char :=
  escapeList s.data

/-- A JSON string literal: opening quote, escaped body, closing quote. -/
def jsonString (s : String) : List Char :=
  '"' :: (escape s ++ ['"'])

/-- JSON rendering of a nullable string column. -/
def jsonOptString : Option String → List Char
  | none => ['n', 'u', 'l', 'l']
  | some s => jsonString s

/-- JSON rendering of a boolean. -/
def jsonBool : Bool → List Char
  | true => ['t', 'r', 'u', 'e']
  | false => ['f', 'a', 'l', 's', 'e']

/-- JSON rendering of a number. -/
def jsonInt (n : Int) : List Char :=
  (toString n).data

/-- JSON rendering of a nullable number. -/
def jsonOptInt : Option Int → List Char
  | none => ['n', 'u', 'l', 'l']
  | some n => jsonInt n

/-- Literal key prefix of the fingerprint object: the characters of the
text "LBRACE quote i d quote colon" that `JSON.stringify` emits before the
`id` value. -/
def litId : List Char :=
  '{' :: '"' :: 'i' :: 'd' :: '"' :: ':' :: []

/-- Literal key text emitted before the `status` value. -/
def litStatus : List Char :=
  ',' :: '"' :: 's' :: 't' :: 'a' :: 't' :: 'u' :: 's' :: '"' :: ':' :: []

/-- Literal key text emitted before the `updated_at` value. -/
def litUpdatedAt : List Char :=
  ',' :: '"' :: 'u' :: 'p' :: 'd' :: 'a' :: 't' :: 'e' :: 'd' :: '_' :: 'a' :: 't' :: '"' :: ':' :: []

/-- The characters `JSON.stringify` produces for one fingerprint triple
`{ id, status, updated_at }`. -/
def encodeTriple (t : TaskTriple) : List Char :=
  litId ++ jsonString t.id ++
    (litStatus ++ jsonString t.status ++
      (litUpdatedAt ++ jsonString t.updated_at ++ ['}']))

/-- The characters `JSON.stringify` produces for the elements of an array:
element encodings joined by commas. -/
def encodeTriples : List TaskTriple → List Char
  | [] => []
  | [t] => encodeTriple t
  | t :: t' :: ts => encodeTriple t ++ ',' :: encodeTriples (t' :: ts)

/-- Embeds `hashState` of `route.ts` at the type it is used for the tasks
fingerprint: `JSON.stringify` of the array of `(id, status, updated_at)`
triples. -/
def hashState (ts : List TaskTriple) : String :=
  ⟨'[' :: (encodeTriples ts ++ [']'])⟩

/-- The characters `JSON.stringify` produces for a `WatcherConfig` record;
`hashState(watcher)` in `route.ts`. -/
def encodeWatcherChars (w : WatcherConfig) : List Char :=
  litId ++ jsonString w.id ++
  (',' :: jsonString "is_running" ++ ':' :: jsonBool w.is_running) ++
  (',' :: jsonString "last_run" ++ ':' :: jsonOptString w.last_run) ++
  (',' :: jsonString "current_task_id" ++ ':' :: jsonOptString w.current_task_id) ++
  (',' :: jsonString "active_task_ids" ++ ':' :: jsonString w.active_task_ids) ++
  (',' :: jsonString "updated_at" ++ ':' :: jsonString w.updated_at) ++ ['}']

/-- Embeds `hashState` of `route.ts` at the watcher type. -/
def watcherHash (w : WatcherConfig) : String :=
  ⟨encodeWatcherChars w⟩

/-- The characters `JSON.stringify` produces for one full `Task` record
(the `tasks` event payload element), fields in the order of the
`getAllTasks` select list. -/
def encodeTaskChars (t : Task) : List Char :=
  litId ++ jsonString t.id ++
  (',' :: jsonString "title" ++ ':' :: jsonString t.title) ++
  (',' :: jsonString "description" ++ ':' :: jsonOptString t.description) ++
  (',' :: jsonString "status" ++ ':' :: jsonString t.status) ++
  (',' :: jsonString "assignee" ++ ':' :: jsonString t.assignee) ++
  (',' :: jsonString "priority" ++ ':' :: jsonString t.priority) ++
  (',' :: jsonString "due_date" ++ ':' :: jsonOptString t.due_date) ++
  (',' :: jsonString "estimated_hours" ++ ':' :: jsonOptInt t.estimated_hours) ++
  (',' :: jsonString "time_spent" ++ ':' :: jsonInt t.time_spent) ++
  (',' :: jsonString "progress" ++ ':' :: jsonInt t.progress) ++
  (',' :: jsonString "is_blocked" ++ ':' :: jsonBool t.is_blocked) ++
  (',' :: jsonString "blocked_reason" ++ ':' :: jsonOptString t.blocked_reason) ++
  (',' :: jsonString "created_at" ++ ':' :: jsonString t.created_at) ++
  (',' :: jsonString "updated_at" ++ ':' :: jsonString t.updated_at) ++
  (',' :: jsonString "project_id" ++ ':' :: jsonOptString t.project_id) ++
  (',' :: jsonString "agent_context" ++ ':' :: jsonOptString t.agent_context) ++ ['}']

/-- The characters for a JSON array of full task records. -/
def encodeTaskList : List Task → List Char
  | [] => []
  | [t] => encodeTaskChars t
  | t :: t' :: ts => encodeTaskChars t ++ ',' :: encodeTaskList (t' :: ts)

/-- Embeds `JSON.stringify(tasks)`: the `tasks` event payload. -/
def encodeTasks (tasks : List Task) : String :=
  ⟨'[' :: (encodeTaskList tasks ++ [']'])⟩

/-- Embeds `JSON.stringify(watcher)`: the `watcher` event payload. -/
def encodeWatcher (w : WatcherConfig) : String :=
  watcherHash w

/-! Cleanliness: the fingerprint injectivity argument assumes the id,
status and timestamp strings contain no quote, no backslash and no
control character, which holds for the values this system stores
(uuids, enum words, ISO timestamps).  Under this assumption
`JSON.stringify` escaping is the identity. -/

/-- A character that `JSON.stringify` passes through unescaped. -/
def CleanChar (c : Char) : Prop :=
  c ≠ '"' ∧ c ≠ '\\' ∧ 32 ≤ c.toNat

instance (c : Char) : Decidable (CleanChar c) := by
  unfold CleanChar; infer_instance

/-- A string all of whose characters are clean. -/
def CleanStr (s : String) : Prop :=
  ∀ c ∈ s.data, CleanChar c

instance (s : String) : Decidable (CleanStr s) := by
  unfold CleanStr; infer_instance

/-- A fingerprint triple with clean fields. -/
def CleanTriple (t : TaskTriple) : Prop :=
  CleanStr t.id ∧ CleanStr t.status ∧ CleanStr t.updated_at

instance (t : TaskTriple) : Decidable (CleanTriple t) := by
  unfold CleanTriple; infer_instance

/-- A triple list all of whose triples are clean. -/
def CleanTriples (ts : List TaskTriple) : Prop :=
  ∀ t ∈ ts, CleanTriple t

instance (ts : List TaskTriple) : Decidable (CleanTriples ts) := by
  unfold CleanTriples; infer_instance

/-! Server model of the SSE endpoint (`src/app/api/events/route.ts`).
The module-scope variables `lastTasksHash` and `lastWatcherHash` are
modelled as `ServerGlobal`, a single record shared by all connections,
exactly as the source declares them at module scope.  Each connection
additionally owns its `isClosed` flag and poll timer (`ConnState`);
`transportOpen` models whether the underlying stream controller still
accepts `enqueue` calls. -/

/-- The module-scope fingerprint pair `lastTasksHash` / `lastWatcherHash`. -/
structure ServerGlobal where
  lastTasksHash : String
  lastWatcherHash : String
deriving DecidableEq, Repr

/-- Per-connection state of one `GET` invocation: the `isClosed` box, the
poll interval handle, and the transport status of the controller. -/
structure ConnState where
  isClosed : Bool
  timerActive : Bool
  transportOpen : Bool
deriving DecidableEq, Repr

/-- One frame written to the SSE transport. -/
inductive SSEEvent where
  | connected
  | tasksEv (payload : String)
  | watcherEv (payload : String)
  | heartbeat
deriving DecidableEq, Repr

/-- Embeds `safeEnqueue`: skip the write when the closed flag is set;
attempt the write otherwise; a write that fails because the controller
closed concurrently (`ERR_INVALID_STATE`) sets the flag and reports
failure instead of raising. -/
def safeEnqueue (c : ConnState) : Bool × ConnState :=
  if c.isClosed then (false, c)
  else if c.transportOpen then (true, c)
  else (false, { c with isClosed := true })

/-- Tail of the poll callback: the heartbeat write (its result is
ignored by the source). -/
def pollHeartbeat (g : ServerGlobal) (c : ConnState) (acc : List SSEEvent) :
    ServerGlobal × ConnState × List SSEEvent :=
  match safeEnqueue c with
  | (ok, c1) => (g, c1, acc ++ if ok then [SSEEvent.heartbeat] else [])

/-- Middle of the poll callback: the watcher fingerprint comparison and
conditional `watcher` write, with early return on write failure. -/
def pollWatcherStep (g : ServerGlobal) (c : ConnState) (watcher : WatcherConfig)
    (acc : List SSEEvent) : ServerGlobal × ConnState × List SSEEvent :=
  let currentWatcherHash := watcherHash watcher
  if currentWatcherHash ≠ g.lastWatcherHash then
    match safeEnqueue c with
    | (false, c1) => (g, c1, acc)
    | (true, c1) =>
      pollHeartbeat { g with lastWatcherHash := currentWatcherHash } c1
        (acc ++ [SSEEvent.watcherEv (encodeWatcher watcher)])
  else pollHeartbeat g c acc

/-- Embeds one execution of the `setInterval` poll callback of `GET`,
given the data the two store reads returned.  Mirrors the source: early
exit (clearing the interval) when closed; fingerprint comparison of the
task triples; guarded write and fingerprint update; then the watcher
comparison and the heartbeat. -/
def pollTick (g : ServerGlobal) (c : ConnState) (tasks : List Task)
    (watcher : WatcherConfig) : ServerGlobal × ConnState × List SSEEvent :=
  if c.isClosed then (g, { c with timerActive := false }, [])
  else
    let currentTasksHash := hashState (taskTriples tasks)
    if currentTasksHash ≠ g.lastTasksHash then
      match safeEnqueue c with
      | (false, c1) => (g, c1, [])
      | (true, c1) =>
        pollWatcherStep { g with lastTasksHash := currentTasksHash } c1 watcher
          [SSEEvent.tasksEv (encodeTasks tasks)]
    else pollWatcherStep g c watcher []

/-- Embeds a poll callback whose store read threw: the error is caught and
logged, nothing is written and no state changes (the early-exit check still
runs first). -/
def pollTickFetchError (g : ServerGlobal) (c : ConnState) :
    ServerGlobal × ConnState × List SSEEvent :=
  if c.isClosed then (g, { c with timerActive := false }, [])
  else (g, c, [])

/-- Embeds the `start` callback of the `ReadableStream` in `GET`: the
`connected` acknowledgement, the unconditional cold-start `tasks` and
`watcher` snapshots, the assignment of both module-scope fingerprints, and
the registration of the poll interval.  The returned `Bool` records
whether `setInterval` was reached. -/
def startStream (g : ServerGlobal) (c : ConnState) (tasks : List Task)
    (watcher : WatcherConfig) :
    ServerGlobal × ConnState × List SSEEvent × Bool :=
  match safeEnqueue c with
  | (false, c1) => (g, c1, [], false)
  | (true, c1) =>
    match safeEnqueue c1 with
    | (false, c2) => (g, c2, [SSEEvent.connected], false)
    | (true, c2) =>
      match safeEnqueue c2 with
      | (false, c3) =>
        (g, c3, [SSEEvent.connected, SSEEvent.tasksEv (encodeTasks tasks)], false)
      | (true, c3) =>
        (⟨hashState (taskTriples tasks), watcherHash watcher⟩,
         { c3 with timerActive := true },
         [SSEEvent.connected, SSEEvent.tasksEv (encodeTasks tasks),
          SSEEvent.watcherEv (encodeWatcher watcher)],
         true)

/-- Result of one `GET` invocation: HTTP status, whether a body stream was
returned, whether a `ReadableStream` was constructed, whether the poll
interval was registered, the frames written, and the resulting
module-scope fingerprint state. -/
structure GetResult where
  status : Nat
  hasBody : Bool
  streamOpened : Bool
  timerRegistered : Bool
  writes : List SSEEvent
  globalState : ServerGlobal
deriving DecidableEq, Repr

/-- Embeds the `GET` handler: a request whose abort signal is already set
is answered `499` with a `null` body before any stream, listener or timer
is created; otherwise the stream is constructed and its `start` callback
runs. -/
def handleGET (aborted : Bool) (g : ServerGlobal) (c : ConnState)
    (tasks : List Task) (watcher : WatcherConfig) : GetResult :=
  if aborted then
    { status := 499, hasBody := false, streamOpened := false,
      timerRegistered := false, writes := [], globalState := g }
  else
    match startStream g c tasks watcher with
    | (g1, _, evs, timer) =>
      { status := 200, hasBody := true, streamOpened := true,
        timerRegistered := timer, writes := evs, globalState := g1 }

/-- Asynchronous happenings on one connection: the client abort signal,
runtime cancellation of the stream, the transport closing under the
controller, a poll callback run (with the data its store reads returned),
and a poll callback whose store read failed. -/
inductive SSEAct where
  | abort
  | cancel
  | transportClose
  | tick (tasks : List Task) (watcher : WatcherConfig)
  | tickFetchError
deriving Repr

/-- Effect of one happening.  `abort` embeds the `abortHandler`; `cancel`
embeds the stream's `cancel` callback (both set the closed flag and clear
the interval); `transportClose` is environmental. -/
def stepAct (g : ServerGlobal) (c : ConnState) : SSEAct → ServerGlobal × ConnState × List SSEEvent
  | SSEAct.abort => (g, { c with isClosed := true, timerActive := false }, [])
  | SSEAct.cancel => (g, { c with isClosed := true, timerActive := false }, [])
  | SSEAct.transportClose => (g, { c with transportOpen := false }, [])
  | SSEAct.tick tasks watcher => pollTick g c tasks watcher
  | SSEAct.tickFetchError => pollTickFetchError g c

/-- Runs a sequence of happenings, collecting every frame written. -/
def runActs (g : ServerGlobal) (c : ConnState) : List SSEAct → ServerGlobal × ConnState × List SSEEvent
  | [] => (g, c, [])
  | a :: rest =>
    match stepAct g c a with
    | (g1, c1, evs) =>
      match runActs g1 c1 rest with
      | (g2, c2, evs2) => (g2, c2, evs ++ evs2)

/-- Counts the `tasks` frames among a list of written frames. -/
def countTasksEv (evs : List SSEEvent) : Nat :=
  (evs.filter fun e => match e with
    | SSEEvent.tasksEv _ => true
    | _ => false).length

/-! Reconciliation layer (`KanbanBoard.tsx`): `tasksAreEqual`,
`mergeTaskUpdates` and the drag override in `handleTasksUpdate`. -/

/-- Embeds `tasksAreEqual`: user-visible field equality, deliberately
excluding `updated_at` and `created_at`. -/
def tasksAreEqual (a b : Task) : Bool :=
  a.id == b.id &&
  a.title == b.title &&
  a.description == b.description &&
  a.status == b.status &&
  a.priority == b.priority &&
  a.assignee == b.assignee &&
  a.due_date == b.due_date &&
  a.estimated_hours == b.estimated_hours &&
  a.time_spent == b.time_spent &&
  a.progress == b.progress &&
  a.is_blocked == b.is_blocked &&
  a.blocked_reason == b.blocked_reason &&
  a.project_id == b.project_id &&
  a.agent_context == b.agent_context

/-- Lookup in a JavaScript `Map` built with `new Map(entries)`: a later
entry with the same key overwrites an earlier one. -/
def jsMapGet (entries : List (String × Task)) (key : String) : Option Task :=
  entries.foldl (fun acc e => if e.1 == key then some e.2 else acc) none

/-- The per-element body of `mergeTaskUpdates`: for one incoming task,
the chosen object (the current one when the id-matched current task is
field-equal, the incoming one otherwise) together with the contribution to
the `hasChanges` flag. -/
def mergeElem (currentTasks : List Task) (newTask : Task) : Task × Bool :=
  match jsMapGet (currentTasks.map fun t => (t.id, t)) newTask.id with
  | none => (newTask, true)
  | some currentTask =>
    if tasksAreEqual currentTask newTask then (currentTask, false)
    else (newTask, true)

/-- The element choices and change flags for a whole incoming list. -/
def mergePairs (currentTasks newTasks : List Task) : List (Task × Bool) :=
  newTasks.map (mergeElem currentTasks)

/-- Embeds `mergeTaskUpdates`: wholesale replace on length mismatch;
otherwise keep the current object for every incoming task whose
id-matched current task is field-equal, and return the original list
when nothing changed (`hasChanges` is the disjunction of the per-element
flags). -/
def mergeTaskUpdates (currentTasks newTasks : List Task) : List Task :=
  if currentTasks.length ≠ newTasks.length then newTasks
  else if (mergePairs currentTasks newTasks).any fun p => p.2 then
    (mergePairs currentTasks newTasks).map fun p => p.1
  else currentTasks

/-- The arrow function of the drag override:
`t => t.id === activeId ? { ...t, status: draggedTask.status } : t`. -/
def overrideStatus (aid : String) (newStatus : String) (t : Task) : Task :=
  if t.id == aid then { t with status := newStatus } else t

/-- Embeds the drag override of `handleTasksUpdate`: while a drag is
active, the incoming snapshot's status for the dragged task id is replaced
by the locally dragged task's status before the merge runs. -/
def applyDragOverride (activeId : Option String)
    (currentTasks newTasks : List Task) : List Task :=
  match activeId with
  | none => newTasks
  | some aid =>
    match currentTasks.find? fun t => t.id == aid with
    | none => newTasks
    | some draggedTask => newTasks.map (overrideStatus aid draggedTask.status)

/-- Embeds the task-list part of `handleTasksUpdate`: drag override, then
the smart merge. -/
def handleTasksUpdateTasks (activeId : Option String)
    (currentTasks newTasks : List Task) : List Task :=
  mergeTaskUpdates currentTasks (applyDragOverride activeId currentTasks newTasks)

/-! Client stream session (`useRealtimeUpdates`). -/

/-- Reconnect bookkeeping of `useRealtimeUpdates`. -/
def maxReconnectAttempts : Nat := 10

/-- Base reconnect delay in milliseconds. -/
def baseReconnectDelay : Nat := 1000

/-- Embeds the `onerror` handler: below the attempt cap, compute the
exponential-backoff delay (capped at 30000 ms), increment the counter and
schedule a reconnect; at the cap, schedule nothing. -/
def onStreamError (attempts : Nat) : Nat × Option Nat :=
  if attempts < maxReconnectAttempts then
    (attempts + 1, some (min (baseReconnectDelay * 2 ^ attempts) 30000))
  else (attempts, none)

/-- Embeds the `connected` listener: the attempt counter resets to 0. -/
def onConnectedEvent (_attempts : Nat) : Nat := 0

/-- Runs `n` consecutive transport errors with no intervening `connected`
event, collecting the scheduled reconnect delays in order. -/
def errorRun : Nat → Nat → Nat × List Nat
  | 0, attempts => (attempts, [])
  | n + 1, attempts =>
    match onStreamError attempts with
    | (a1, d) =>
      match errorRun n a1 with
      | (a2, ds) => (a2, d.toList ++ ds)

/-- Connection state of the client session. -/
inductive ConnectionState where
  | disconnected
  | connecting
  | connected
deriving DecidableEq, Repr

/-- Mutable refs of `useRealtimeUpdates`: the `EventSource` handle, the
pending reconnect timeout handle, and the connection state. -/
structure ClientSession where
  eventSource : Option Nat
  reconnectTimeout : Option Nat
  connectionState : ConnectionState
deriving DecidableEq, Repr

/-- Embeds `disconnect()`.  Returns the new session state, the timer
handles cancelled, the stream handles closed, and whether the caller's
disconnect callback was invoked. -/
def disconnectSession (s : ClientSession) :
    ClientSession × List Nat × List Nat × Bool :=
  let cleared : List Nat × ClientSession :=
    match s.reconnectTimeout with
    | some h => ([h], { s with reconnectTimeout := none })
    | none => ([], s)
  let closed : List Nat × ClientSession :=
    match cleared.2.eventSource with
    | some h => ([h], { cleared.2 with eventSource := none })
    | none => ([], cleared.2)
  ({ closed.2 with connectionState := ConnectionState.disconnected },
   cleared.1, closed.1, true)

/-! Store read layer (`lib/db.ts`). -/

/-- Insertion step of `ORDER BY updated_at DESC`. -/
def insertByUpdatedAtDesc (t : Task) : List Task → List Task
  | [] => [t]
  | u :: us =>
    if u.updated_at < t.updated_at then t :: u :: us
    else u :: insertByUpdatedAtDesc t us

/-- The rows of the `tasks` table ordered by `updated_at DESC`. -/
def orderByUpdatedAtDesc (store : List Task) : List Task :=
  store.foldr insertByUpdatedAtDesc []

/-- The `CASE WHEN agent_context IS NOT NULL THEN 'has_context' ELSE NULL
END` projection of `getAllTasks`. -/
def maskAgentContext (t : Task) : Task :=
  { t with agent_context :=
      match t.agent_context with
      | some _ => some "has_context"
      | none => none }

/-- Embeds `getAllTasks`: all rows, ordered by `updated_at DESC`, with
`agent_context` replaced by the presence marker. -/
def getAllTasks (store : List Task) : List Task :=
  (orderByUpdatedAtDesc store).map maskAgentContext

/-- Equality of every `Task` field except `agent_context`. -/
def taskEqExceptAgentContext (a b : Task) : Bool :=
  a.id == b.id &&
  a.title == b.title &&
  a.description == b.description &&
  a.status == b.status &&
  a.assignee == b.assignee &&
  a.priority == b.priority &&
  a.due_date == b.due_date &&
  a.estimated_hours == b.estimated_hours &&
  a.time_spent == b.time_spent &&
  a.progress == b.progress &&
  a.is_blocked == b.is_blocked &&
  a.blocked_reason == b.blocked_reason &&
  a.created_at == b.created_at &&
  a.updated_at == b.updated_at &&
  a.project_id == b.project_id

/-! Status vocabulary. -/

/-- The members of the status union declared on the `Task` interface in
`lib/db.ts`. -/
def declaredTaskStatuses : List String :=
  ["todo", "in_progress", "in_review", "done"]

/-- The column ids of the Kanban board (`columns` in `KanbanBoard.tsx`). -/
def columnIds : List String :=
  ["todo", "in_progress", "testing", "in_review", "done"]

/-- The status pipeline named by the specification. -/
def specStatuses : List String :=
  ["todo", "in_progress", "testing", "in_review", "done"]

/-- Embeds the status assignment performed by `handleDragOver` when a task
is dragged over a column: `{ ...t, status: overId }`. -/
def dragToColumn (t : Task) (overId : String) : Task :=
  { t with status := overId }

/-! Concrete instances used by counterexamples and witnesses. -/

/-- A representative stored task. -/
def sampleTask : Task :=
  { id := "t1", title := "Write spec", description := none, status := "todo",
    assignee := "Simon", priority := "medium", due_date := none,
    estimated_hours := none, time_spent := 0, progress := 0,
    is_blocked := false, blocked_reason := none, agent_context := none,
    project_id := none, created_at := "c1", updated_at := "u1" }

/-- The same task after a status change (with the timestamp advanced). -/
def sampleTaskMoved : Task :=
  { sampleTask with status := "in_progress", updated_at := "u2" }

/-- The same task after a write that only bumped the timestamp. -/
def sampleTaskTouched : Task :=
  { sampleTask with updated_at := "u9" }

/-- A stored task carrying an agent context. -/
def secretTask : Task :=
  { sampleTask with id := "t2", agent_context := some "secret notes" }

/-- A representative watcher configuration row. -/
def sampleWatcher : WatcherConfig :=
  { id := "singleton", is_running := false, last_run := none,
    current_task_id := none, active_task_ids := "[]", updated_at := "w1" }

/-- A healthy connection: not closed, timer running, transport open. -/
def connOpen : ConnState :=
  { isClosed := false, timerActive := true, transportOpen := true }

/-- Two current tasks sharing one id (the `Map` built by the merge keeps
only the later one). -/
def dupTaskA1 : Task :=
  { sampleTask with id := "x", title := "first" }

/-- The second task with the duplicated id. -/
def dupTaskA2 : Task :=
  { sampleTask with id := "x", title := "second" }

/-- An incoming task field-equal to `dupTaskA1` with a newer timestamp. -/
def dupTaskB1 : Task :=
  { dupTaskA1 with updated_at := "u9" }

/-- An incoming task field-equal to `dupTaskA2` with a newer timestamp. -/
def dupTaskB2 : Task :=
  { dupTaskA2 with updated_at := "u9" }

/-! Fingerprint serialization lemmas. -/

theorem escChar_of_clean {c : Char} (h : CleanChar c) : escChar c = [c] := by
  obtain ⟨h1, h2, h3⟩ := h
  have hn : c ≠ '\n' := by intro hc; subst hc; exact absurd h3 (by decide)
  have hr : c ≠ '\r' := by intro hc; subst hc; exact absurd h3 (by decide)
  have ht : c ≠ '\t' := by intro hc; subst hc; exact absurd h3 (by decide)
  have hb : c ≠ Char.ofNat 8 := by intro hc; subst hc; exact absurd h3 (by decide)
  have hf : c ≠ Char.ofNat 12 := by intro hc; subst hc; exact absurd h3 (by decide)
  have hlt : ¬ c.toNat < 32 := by omega
  simp [escChar, h1, h2, hn, hr, ht, hb, hf, hlt]

theorem escapeList_of_clean {l : List Char} (h : ∀ c ∈ l, CleanChar c) :
    escapeList l = l := by
  induction l with
  | nil => rfl
  | cons c cs ih =>
    have hc : CleanChar c := h c (List.mem_cons_self c cs)
    have hcs : ∀ x ∈ cs, CleanChar x := fun x hx => h x (List.mem_cons_of_mem c hx)
    simp [escapeList] at ih ⊢
    rw [escChar_of_clean hc, ih hcs]
    simp

theorem escape_of_clean {s : String} (h : CleanStr s) : escape s = s.data :=
  escapeList_of_clean h

theorem quote_not_mem_of_clean {s : String} (h : CleanStr s) : '"' ∉ s.data := by
  intro hmem
  exact (h _ hmem).1 rfl

/-- Splitting a character list at an unescaped quote is unambiguous: this is
why `JSON.stringify` output determines the string fields. -/
theorem split_at_quote :
    ∀ (as : List Char) {as' bs bs' : List Char}, '"' ∉ as → '"' ∉ as' →
      as ++ '"' :: bs = as' ++ '"' :: bs' → as = as' ∧ bs = bs' := by
  intro as
  induction as with
  | nil =>
    intro as' bs bs' _ h2 h
    cases as' with
    | nil => simpa using h
    | cons c t =>
      simp only [List.nil_append, List.cons_append, List.cons.injEq] at h
      exact absurd (h.1.symm ▸ List.mem_cons_self c t) h2
  | cons c t ih =>
    intro as' bs bs' h1 h2 h
    cases as' with
    | nil =>
      simp only [List.nil_append, List.cons_append, List.cons.injEq] at h
      exact absurd (h.1 ▸ List.mem_cons_self c t) h1
    | cons c' t' =>
      simp only [List.cons_append, List.cons.injEq] at h
      have ht := ih (fun hm => h1 (List.mem_cons_of_mem c hm))
        (fun hm => h2 (List.mem_cons_of_mem c' hm)) h.2
      exact ⟨by rw [h.1, ht.1], ht.2⟩

/-- The encoding of one fingerprint triple, followed by arbitrary text, is
uniquely decodable when the triple's fields are clean. -/
theorem encodeTriple_append_inj {t t' : TaskTriple} {r r' : List Char}
    (h : CleanTriple t) (h' : CleanTriple t')
    (heq : encodeTriple t ++ r = encodeTriple t' ++ r') : t = t' ∧ r = r' := by
  obtain ⟨hid, hst, hua⟩ := h
  obtain ⟨hid', hst', hua'⟩ := h'
  simp only [encodeTriple, jsonString, litId, litStatus, litUpdatedAt,
    escape_of_clean hid, escape_of_clean hst, escape_of_clean hua,
    escape_of_clean hid', escape_of_clean hst', escape_of_clean hua',
    List.cons_append, List.nil_append, List.append_assoc, List.cons.injEq,
    true_and] at heq
  obtain ⟨hideq, heq⟩ := split_at_quote _ (quote_not_mem_of_clean hid)
    (quote_not_mem_of_clean hid') heq
  simp only [List.cons.injEq, true_and] at heq
  obtain ⟨hsteq, heq⟩ := split_at_quote _ (quote_not_mem_of_clean hst)
    (quote_not_mem_of_clean hst') heq
  simp only [List.cons.injEq, true_and] at heq
  obtain ⟨huaeq, heq⟩ := split_at_quote _ (quote_not_mem_of_clean hua)
    (quote_not_mem_of_clean hua') heq
  simp only [List.cons.injEq, true_and] at heq
  refine ⟨?_, heq⟩
  cases t; cases t'
  simp_all [String.ext_iff]

theorem encodeTriple_head (t : TaskTriple) : ∃ l, encodeTriple t = '{' :: l :=
  ⟨_, rfl⟩

/-- The comma-joined encoding of a triple list, closed by a bracket, is
uniquely decodable when all triples are clean. -/
theorem encodeTriples_append_inj :
    ∀ {ts : List TaskTriple} {ts' : List TaskTriple} {r r' : List Char},
      CleanTriples ts → CleanTriples ts' →
      encodeTriples ts ++ ']' :: r = encodeTriples ts' ++ ']' :: r' →
      ts = ts' ∧ r = r' := by
  intro ts
  induction ts with
  | nil =>
    intro ts' r r' _ h' heq
    cases ts' with
    | nil => simpa [encodeTriples] using heq
    | cons t' l' =>
      exfalso
      obtain ⟨x, hx⟩ := encodeTriple_head t'
      cases l' with
      | nil => simp [encodeTriples, hx] at heq
      | cons t2' l2' => simp [encodeTriples, hx] at heq
  | cons t l ih =>
    intro ts' r r' h h' heq
    have hct : CleanTriple t := h t (List.mem_cons_self t l)
    have hcl : CleanTriples l := fun x hx => h x (List.mem_cons_of_mem t hx)
    cases ts' with
    | nil =>
      exfalso
      obtain ⟨x, hx⟩ := encodeTriple_head t
      cases l with
      | nil => simp [encodeTriples, hx] at heq
      | cons t2 l2 => simp [encodeTriples, hx] at heq
    | cons t' l' =>
      have hct' : CleanTriple t' := h' t' (List.mem_cons_self t' l')
      have hcl' : CleanTriples l' := fun x hx => h' x (List.mem_cons_of_mem t' hx)
      cases l with
      | nil =>
        cases l' with
        | nil =>
          simp only [encodeTriples] at heq
          obtain ⟨hteq, hre⟩ := encodeTriple_append_inj hct hct' heq
          simp only [List.cons.injEq, true_and] at hre
          exact ⟨by rw [hteq], hre⟩
        | cons t2' l2' =>
          exfalso
          simp only [encodeTriples, List.append_assoc, List.cons_append] at heq
          obtain ⟨_, hre⟩ := encodeTriple_append_inj hct hct' heq
          simp at hre
      | cons t2 l2 =>
        cases l' with
        | nil =>
          exfalso
          simp only [encodeTriples, List.append_assoc, List.cons_append] at heq
          obtain ⟨_, hre⟩ := encodeTriple_append_inj hct hct' heq
          simp at hre
        | cons t2' l2' =>
          simp only [encodeTriples, List.append_assoc, List.cons_append] at heq
          obtain ⟨hteq, hre⟩ := encodeTriple_append_inj hct hct' heq
          simp only [List.cons.injEq, true_and] at hre
          have := ih hcl hcl' hre
          exact ⟨by rw [hteq, this.1], this.2⟩

/-- Injectivity of the tasks fingerprint on clean triple lists: two task
lists receive the same `hashState` value only if their
`(id, status, updated_at)` sequences coincide. -/
theorem hashState_inj {ts ts' : List TaskTriple}
    (h : CleanTriples ts) (h' : CleanTriples ts')
    (heq : hashState ts = hashState ts') : ts = ts' := by
  unfold hashState at heq
  have h2 : '[' :: (encodeTriples ts ++ [']']) = '[' :: (encodeTriples ts' ++ [']']) := by
    exact congrArg String.data heq
  injection h2 with _ h3
  exact (@encodeTriples_append_inj ts ts' [] [] h h' h3).1

/-! Reconnect backoff lemmas. -/

theorem errorRun_spec : ∀ n a : Nat, a + n ≤ 10 →
    errorRun n a =
      (a + n, (List.range n).map fun k => min (1000 * 2 ^ (a + k)) 30000) := by
  intro n
  induction n with
  | zero => intro a _; simp [errorRun]
  | succ m ih =>
    intro a ha
    have ha1 : a < maxReconnectAttempts := by
      unfold maxReconnectAttempts; omega
    have step : onStreamError a = (a + 1, some (min (1000 * 2 ^ a) 30000)) := by
      simp [onStreamError, ha1, baseReconnectDelay]
    have ih1 := ih (a + 1) (by omega)
    simp only [errorRun, step, ih1, List.range_succ_eq_map, List.map_cons,
      List.map_map, Option.toList_some, List.cons_append, List.nil_append,
      Prod.mk.injEq]
    refine ⟨by omega, ?_⟩
    simp only [List.cons.injEq]
    refine ⟨by simp, ?_⟩
    apply List.map_congr_left
    intro k _
    have hk : a + 1 + k = a + (k + 1) := by omega
    simp [Function.comp, hk, Nat.succ_eq_add_one]

/-- C5: on N consecutive transport errors (N ≤ 10) the client schedules
reconnects with delays `min(1000 * 2^0, 30000), ..., min(1000 * 2^(N-1), 30000)`,
the attempt counter reaches N, the failure after the 10th attempt schedules
no further reconnect, and a `connected` event resets the counter to 0. -/
theorem claim_C5_reconnect_backoff (N s : Nat) (hN : N ≤ 10) :
    (errorRun N 0).2 = (List.range N).map (fun k => min (1000 * 2 ^ k) 30000) ∧
    (errorRun N 0).1 = N ∧
    (onStreamError (errorRun 10 0).1).2 = none ∧
    onConnectedEvent s = 0 := by
  have h := errorRun_spec N 0 (by omega)
  have h10 := errorRun_spec 10 0 (by omega)
  refine ⟨?_, ?_, ?_, rfl⟩
  · rw [h]; simp
  · rw [h]; simp
  · rw [h10]; simp [onStreamError, maxReconnectAttempts]

theorem claim_C5_reconnect_backoff_witness :
    4 ≤ 10 ∧
    ((errorRun 4 0).2 = (List.range 4).map (fun k => min (1000 * 2 ^ k) 30000) ∧
     (errorRun 4 0).1 = 4 ∧
     (onStreamError (errorRun 10 0).1).2 = none ∧
     onConnectedEvent 7 = 0) :=
  ⟨by decide, claim_C5_reconnect_backoff 4 7 (by decide)⟩

/-- C10: a `GET` invocation whose request signal is already aborted
returns status 499 with no body, opens no stream, registers no poll timer
and writes no event (and leaves the fingerprint state untouched). -/
theorem claim_C10_aborted_request (g : ServerGlobal) (c : ConnState)
    (tasks : List Task) (watcher : WatcherConfig) :
    handleGET true g c tasks watcher =
      { status := 499, hasBody := false, streamOpened := false,
        timerRegistered := false, writes := [], globalState := g } := rfl

/-- C8: the status pipeline of the board includes `testing` — the Kanban
board has a Testing column and dragging a task onto it assigns the status
string `testing` — but the status union declared on the `Task` interface
of `lib/db.ts` omits `testing`, contradicting both the board code and the
specification's five-value enum. -/
theorem claim_C8_testing_status :
    "testing" ∈ specStatuses ∧
    "testing" ∈ columnIds ∧
    (dragToColumn sampleTask "testing").status = "testing" ∧
    "testing" ∉ declaredTaskStatuses := by decide

/-- C9 counterexample: calling `disconnect()` on an already-disconnected
session (no open stream, no pending reconnect timer) is not the claimed
no-op: the source invokes the caller's disconnect callback
unconditionally, so the callback fires on this call too. -/
theorem claim_C9_counterexample :
    (disconnectSession
      { eventSource := none, reconnectTimeout := none,
        connectionState := ConnectionState.disconnected }).2.2.2 = true := by
  decide

/-- C9 (amended): `disconnect()` always cancels any pending reconnect
timer, closes any open stream and transitions to disconnected, and it is
idempotent on the session state — a second call changes nothing, cancels
no timer and closes no stream — but it invokes the disconnect callback on
every call, including when the session is already disconnected. -/
theorem claim_C9_disconnect_idempotent (s : ClientSession) :
    (disconnectSession s).1.reconnectTimeout = none ∧
    (disconnectSession s).1.eventSource = none ∧
    (disconnectSession s).1.connectionState = ConnectionState.disconnected ∧
    disconnectSession (disconnectSession s).1 =
      ((disconnectSession s).1, [], [], true) := by
  rcases s with ⟨es, rt, cs⟩
  rcases es <;> rcases rt <;> simp [disconnectSession]

/-- C1: the fingerprint pair lives at module scope, so it is shared by all
connections, and a `tasks` emission owed to one connection is suppressed
by another connection's earlier emission.  Concretely: client B
cold-starts while the store holds `[sampleTask]` (the shared fingerprints
are set from that snapshot); the store then changes to
`[sampleTaskMoved]`; client A's poll tick emits the update and overwrites
the shared fingerprint; client B's subsequent poll tick — although B last
received `[sampleTask]`, whose fingerprint differs from the store's — emits
no `tasks` event. -/
theorem claim_C1_shared_fingerprint_suppression :
    (let g0 := (startStream ⟨"", ""⟩ connOpen [sampleTask] sampleWatcher).1
     let tickA := pollTick g0 connOpen [sampleTaskMoved] sampleWatcher
     let tickB := pollTick tickA.1 connOpen [sampleTaskMoved] sampleWatcher
     countTasksEv tickA.2.2 = 1 ∧
     countTasksEv tickB.2.2 = 0 ∧
     hashState (taskTriples [sampleTaskMoved]) ≠
       hashState (taskTriples [sampleTask])) := by
  decide

/-- C7 counterexample: the `tasks` snapshot does not carry the stored
`agent_context`: `getAllTasks` replaces it by the marker `has_context`,
so for a store whose task holds `some "secret notes"` no snapshot record
equals the store row on every field. -/
theorem claim_C7_counterexample :
    secretTask.agent_context = some "secret notes" ∧
    (getAllTasks [secretTask]).map (fun t => t.agent_context) =
      [some "has_context"] ∧
    ((getAllTasks [secretTask]).all fun t =>
      [secretTask].any fun s => decide (s = t)) = false := by
  decide

theorem mem_insertByUpdatedAtDesc {x t : Task} : ∀ {l : List Task},
    x ∈ insertByUpdatedAtDesc t l ↔ x = t ∨ x ∈ l := by
  intro l
  induction l with
  | nil => simp [insertByUpdatedAtDesc]
  | cons u us ih =>
    simp only [insertByUpdatedAtDesc]
    split
    · simp [List.mem_cons]
    · simp only [List.mem_cons, ih]
      tauto

theorem mem_orderByUpdatedAtDesc {x : Task} : ∀ {store : List Task},
    x ∈ orderByUpdatedAtDesc store ↔ x ∈ store := by
  intro store
  induction store with
  | nil => simp [orderByUpdatedAtDesc]
  | cons s rest ih =>
    show x ∈ insertByUpdatedAtDesc s (orderByUpdatedAtDesc rest) ↔ _
    rw [mem_insertByUpdatedAtDesc]
    simp [ih]

/-- C7 (amended): every record of the `tasks` snapshot agrees with the
store row of the same id on every field except `agent_context`, which the
select list of `getAllTasks` deliberately replaces by the presence marker
`has_context` (`some` inputs) or `null` (`none` inputs). -/
theorem claim_C7_snapshot_fields (store : List Task) :
    ((getAllTasks store).all fun t => store.any fun s =>
      (s.id == t.id) && taskEqExceptAgentContext s t &&
      (t.agent_context ==
        match s.agent_context with
        | some _ => some "has_context"
        | none => none)) = true := by
  rw [List.all_eq_true]
  intro t ht
  unfold getAllTasks at ht
  rw [List.mem_map] at ht
  obtain ⟨s, hs, rfl⟩ := ht
  rw [List.any_eq_true]
  refine ⟨s, mem_orderByUpdatedAtDesc.1 hs, ?_⟩
  cases hctx : s.agent_context <;>
    simp [maskAgentContext, taskEqExceptAgentContext, hctx]

/-! Poll-tick lemmas. -/

theorem countTasksEv_append (a b : List SSEEvent) :
    countTasksEv (a ++ b) = countTasksEv a + countTasksEv b := by
  simp [countTasksEv, List.filter_append]

theorem pollHeartbeat_tasks_count (g : ServerGlobal) (c : ConnState)
    (acc : List SSEEvent) :
    countTasksEv (pollHeartbeat g c acc).2.2 = countTasksEv acc := by
  unfold pollHeartbeat
  rcases h : safeEnqueue c with ⟨ok, c1⟩
  cases ok <;> simp [countTasksEv_append, countTasksEv]

theorem pollHeartbeat_fst (g : ServerGlobal) (c : ConnState)
    (acc : List SSEEvent) : (pollHeartbeat g c acc).1 = g := by
  unfold pollHeartbeat
  rcases h : safeEnqueue c with ⟨ok, c1⟩
  rfl

theorem pollWatcherStep_tasks_count (g : ServerGlobal) (c : ConnState)
    (w : WatcherConfig) (acc : List SSEEvent) :
    countTasksEv (pollWatcherStep g c w acc).2.2 = countTasksEv acc := by
  simp only [pollWatcherStep]
  by_cases hw : watcherHash w ≠ g.lastWatcherHash
  · rw [if_pos hw]
    rcases h : safeEnqueue c with ⟨ok, c1⟩
    cases ok
    · rfl
    · rw [pollHeartbeat_tasks_count, countTasksEv_append]
      simp [countTasksEv]
  · rw [if_neg hw]
    exact pollHeartbeat_tasks_count _ _ _

theorem pollWatcherStep_lastTasksHash (g : ServerGlobal) (c : ConnState)
    (w : WatcherConfig) (acc : List SSEEvent) :
    (pollWatcherStep g c w acc).1.lastTasksHash = g.lastTasksHash := by
  simp only [pollWatcherStep]
  by_cases hw : watcherHash w ≠ g.lastWatcherHash
  · rw [if_pos hw]
    rcases h : safeEnqueue c with ⟨ok, c1⟩
    cases ok
    · rfl
    · rw [pollHeartbeat_fst]
  · rw [if_neg hw]
    rw [pollHeartbeat_fst]

theorem getD_set_self {α : Type} [Inhabited α] :
    ∀ (l : List α) (i : Nat) (a : α), i < l.length →
      (l.set i a).getD i default = a := by
  intro l
  induction l with
  | nil => intro i a h; simp at h
  | cons x xs ih =>
    intro i a h
    cases i with
    | zero => simp [List.set]
    | succ j =>
      simpa [List.set] using ih j a (by simpa using h)

/-- One open-connection poll tick emits a `tasks` event exactly when the
task fingerprint differs from the stored one, and stores the new
fingerprint exactly when it emitted. -/
theorem pollTick_tasks_count (g : ServerGlobal) (c : ConnState)
    (tasks : List Task) (watcher : WatcherConfig)
    (hopen : c.isClosed = false) (htrans : c.transportOpen = true) :
    countTasksEv (pollTick g c tasks watcher).2.2 =
      (if hashState (taskTriples tasks) = g.lastTasksHash then 0 else 1) ∧
    (pollTick g c tasks watcher).1.lastTasksHash =
      (if hashState (taskTriples tasks) = g.lastTasksHash then g.lastTasksHash
       else hashState (taskTriples tasks)) := by
  have hse : safeEnqueue c = (true, c) := by
    simp [safeEnqueue, hopen, htrans]
  simp only [pollTick, hopen, Bool.false_eq_true, if_false]
  by_cases hEq : hashState (taskTriples tasks) = g.lastTasksHash
  · rw [if_pos hEq, if_pos hEq, if_neg (fun hcon => hcon hEq)]
    constructor
    · rw [pollWatcherStep_tasks_count]; rfl
    · rw [pollWatcherStep_lastTasksHash]
  · rw [if_neg hEq, if_neg hEq, if_pos hEq, hse]
    constructor
    · rw [pollWatcherStep_tasks_count]; rfl
    · rw [pollWatcherStep_lastTasksHash]

/-- C2: on every poll tick of an open connection the detector emits a
`tasks` event exactly when the fingerprint — the serialized ordered
sequence of `(id, status, updated_at)` triples — differs from the stored
fingerprint; identical task lists produce identical fingerprints and no
event; changing one task's status or `updated_at` (id held fixed) changes
the fingerprint and produces exactly one `tasks` emission, after which the
stored fingerprint is updated. -/
theorem claim_C2_fingerprint_gating
    (g g2 : ServerGlobal) (c c2 : ConnState)
    (tasks tasks' tasks2 : List Task) (watcher watcher2 : WatcherConfig)
    (i : Nat) (tNew : TaskTriple)
    (hopen : c.isClosed = false) (htrans : c.transportOpen = true)
    (hprev : g.lastTasksHash = hashState (taskTriples tasks))
    (hclean : CleanTriples (taskTriples tasks))
    (hclean' : CleanTriples (taskTriples tasks'))
    (hset : taskTriples tasks' = (taskTriples tasks).set i tNew)
    (hi : i < (taskTriples tasks).length)
    (_hid : tNew.id = ((taskTriples tasks).getD i default).id)
    (hne : tNew ≠ (taskTriples tasks).getD i default)
    (hopen2 : c2.isClosed = false) (htrans2 : c2.transportOpen = true) :
    countTasksEv (pollTick g c tasks watcher).2.2 = 0 ∧
    (pollTick g c tasks watcher).1.lastTasksHash = g.lastTasksHash ∧
    hashState (taskTriples tasks') ≠ hashState (taskTriples tasks) ∧
    countTasksEv (pollTick g c tasks' watcher).2.2 = 1 ∧
    (pollTick g c tasks' watcher).1.lastTasksHash =
      hashState (taskTriples tasks') ∧
    countTasksEv (pollTick g2 c2 tasks2 watcher2).2.2 =
      (if hashState (taskTriples tasks2) = g2.lastTasksHash then 0 else 1) := by
  have hdiff : hashState (taskTriples tasks') ≠ hashState (taskTriples tasks) := by
    intro heq
    have hlists := hashState_inj hclean' hclean heq
    rw [hset] at hlists
    have hgot := congrArg (fun l => l.getD i default) hlists
    simp only at hgot
    rw [getD_set_self _ _ _ hi] at hgot
    exact hne hgot
  have hx : ¬ hashState (taskTriples tasks') = g.lastTasksHash := by
    rw [hprev]; exact hdiff
  have hA := (pollTick_tasks_count g c tasks watcher hopen htrans).1
  have hB := (pollTick_tasks_count g c tasks watcher hopen htrans).2
  have hD := (pollTick_tasks_count g c tasks' watcher hopen htrans).1
  have hE := (pollTick_tasks_count g c tasks' watcher hopen htrans).2
  have hF := (pollTick_tasks_count g2 c2 tasks2 watcher2 hopen2 htrans2).1
  rw [if_pos hprev.symm] at hA
  rw [if_pos hprev.symm] at hB
  rw [if_neg hx] at hD
  rw [if_neg hx] at hE
  exact ⟨hA, hB, hdiff, hD, hE, hF⟩

theorem claim_C2_fingerprint_gating_witness :
    ((connOpen.isClosed = false) ∧ (connOpen.transportOpen = true) ∧
     ((⟨hashState (taskTriples [sampleTask]), ""⟩ : ServerGlobal).lastTasksHash =
       hashState (taskTriples [sampleTask])) ∧
     CleanTriples (taskTriples [sampleTask]) ∧
     CleanTriples (taskTriples [sampleTaskMoved]) ∧
     (taskTriples [sampleTaskMoved] =
       (taskTriples [sampleTask]).set 0 ⟨"t1", "in_progress", "u2"⟩) ∧
     (0 < (taskTriples [sampleTask]).length) ∧
     ((⟨"t1", "in_progress", "u2"⟩ : TaskTriple).id =
       ((taskTriples [sampleTask]).getD 0 default).id) ∧
     ((⟨"t1", "in_progress", "u2"⟩ : TaskTriple) ≠
       (taskTriples [sampleTask]).getD 0 default)) ∧
    (countTasksEv (pollTick ⟨hashState (taskTriples [sampleTask]), ""⟩ connOpen
        [sampleTask] sampleWatcher).2.2 = 0 ∧
     (pollTick ⟨hashState (taskTriples [sampleTask]), ""⟩ connOpen
        [sampleTask] sampleWatcher).1.lastTasksHash =
       (⟨hashState (taskTriples [sampleTask]), ""⟩ : ServerGlobal).lastTasksHash ∧
     hashState (taskTriples [sampleTaskMoved]) ≠
       hashState (taskTriples [sampleTask]) ∧
     countTasksEv (pollTick ⟨hashState (taskTriples [sampleTask]), ""⟩ connOpen
        [sampleTaskMoved] sampleWatcher).2.2 = 1 ∧
     (pollTick ⟨hashState (taskTriples [sampleTask]), ""⟩ connOpen
        [sampleTaskMoved] sampleWatcher).1.lastTasksHash =
       hashState (taskTriples [sampleTaskMoved]) ∧
     countTasksEv (pollTick ⟨hashState (taskTriples [sampleTask]), ""⟩ connOpen
        [sampleTask] sampleWatcher).2.2 =
       (if hashState (taskTriples [sampleTask]) =
           (⟨hashState (taskTriples [sampleTask]), ""⟩ : ServerGlobal).lastTasksHash
        then 0 else 1)) :=
  ⟨⟨rfl, rfl, rfl, by decide, by decide, by decide, by decide, by decide, by decide⟩,
   claim_C2_fingerprint_gating
     ⟨hashState (taskTriples [sampleTask]), ""⟩
     ⟨hashState (taskTriples [sampleTask]), ""⟩
     connOpen connOpen [sampleTask] [sampleTaskMoved] [sampleTask]
     sampleWatcher sampleWatcher 0 ⟨"t1", "in_progress", "u2"⟩
     rfl rfl rfl (by decide) (by decide) (by decide) (by decide) (by decide)
     (by decide) rfl rfl⟩

/-! Merge lemmas. -/

theorem jsMapGet_append_single (es : List (String × Task)) (e : String × Task)
    (k : String) :
    jsMapGet (es ++ [e]) k = if e.1 == k then some e.2 else jsMapGet es k := by
  unfold jsMapGet
  rw [List.foldl_append]
  rfl

/-- With pairwise distinct ids, the `Map` lookup of a member task's id
returns that task. -/
theorem jsMapGet_nodup : ∀ (A : List Task) (a : Task),
    (A.map fun t => t.id).Nodup → a ∈ A →
    jsMapGet (A.map fun t => (t.id, t)) a.id = some a := by
  intro A
  induction A using List.reverseRecOn with
  | nil => intro a _ ha; cases ha
  | append_singleton l x ih =>
    intro a hnodup ha
    rw [List.map_append] at hnodup
    have hnl : (l.map fun t => t.id).Nodup := (List.nodup_append.mp hnodup).1
    have hdisj := (List.nodup_append.mp hnodup).2.2
    rw [List.map_append]
    simp only [List.map_cons, List.map_nil]
    rw [jsMapGet_append_single]
    rcases List.mem_append.mp ha with hal | hax
    · have hne : ¬ (x.id == a.id) = true := by
        intro hbe
        have hmem : a.id ∈ l.map fun t => t.id := List.mem_map_of_mem _ hal
        have heq : a.id = x.id := (beq_iff_eq.mp hbe).symm
        exact hdisj hmem (by simp [heq])
      rw [if_neg hne]
      exact ih a hnl hal
    · have hax' : a = x := by simpa using hax
      subst hax'
      simp

/-- C3 counterexample: for current list `A = [dupTaskA1, dupTaskA2]` (two
tasks sharing the id `x`) and incoming list `B = [dupTaskB1, dupTaskB2]`
(each field-equal to an id-matching task of `A`, with newer timestamps),
the merge does not return `A`: the id map keeps only the later duplicate,
so `dupTaskB1` compares against `dupTaskA2`, registers as changed, and the
merged list takes the incoming object. -/
theorem claim_C3_counterexample :
    ([dupTaskB1, dupTaskB2].all fun b =>
      [dupTaskA1, dupTaskA2].any fun a =>
        (a.id == b.id) && tasksAreEqual a b) = true ∧
    [dupTaskA1, dupTaskA2].length = [dupTaskB1, dupTaskB2].length ∧
    mergeTaskUpdates [dupTaskA1, dupTaskA2] [dupTaskB1, dupTaskB2] ≠
      [dupTaskA1, dupTaskA2] := by
  decide

/-- C3 (amended): for task lists `A`, `B` of equal length such that every
task of `B` has an id-matching, field-equal (per the user-visible-field
contract) task in `A`, and additionally the ids of `A` are pairwise
distinct, `mergeTaskUpdates A B` returns the original list `A` itself, so
every element of the result is the counterpart object from `A`. -/
theorem claim_C3_merge_identity (A B : List Task)
    (hlen : A.length = B.length)
    (hmatch : ∀ b ∈ B, ∃ a ∈ A, a.id = b.id ∧ tasksAreEqual a b = true)
    (hnodup : (A.map fun t => t.id).Nodup) :
    mergeTaskUpdates A B = A := by
  have hpairs : ((mergePairs A B).any fun p => p.2) = false := by
    rw [List.any_eq_false]
    intro p hp
    unfold mergePairs at hp
    rw [List.mem_map] at hp
    obtain ⟨b, hb, rfl⟩ := hp
    obtain ⟨a, haA, haid, haeq⟩ := hmatch b hb
    have hget : jsMapGet (A.map fun t => (t.id, t)) b.id = some a := by
      rw [← haid]; exact jsMapGet_nodup A a hnodup haA
    simp [mergeElem, hget, haeq]
  unfold mergeTaskUpdates
  rw [if_neg (fun h => h hlen), if_neg (by rw [hpairs]; simp)]

theorem claim_C3_merge_identity_witness :
    ([sampleTask].length = [sampleTaskTouched].length ∧
     (∀ b ∈ [sampleTaskTouched], ∃ a ∈ [sampleTask],
        a.id = b.id ∧ tasksAreEqual a b = true) ∧
     ([sampleTask].map fun t => t.id).Nodup) ∧
    mergeTaskUpdates [sampleTask] [sampleTaskTouched] = [sampleTask] :=
  ⟨⟨by decide, by decide, by decide⟩,
   claim_C3_merge_identity [sampleTask] [sampleTaskTouched]
     (by decide) (by decide) (by decide)⟩

/-! Drag-override lemmas. -/

theorem tasksAreEqual_id {a b : Task} (h : tasksAreEqual a b = true) :
    a.id = b.id := by
  simp only [tasksAreEqual, Bool.and_eq_true, beq_iff_eq] at h
  tauto

theorem tasksAreEqual_status {a b : Task} (h : tasksAreEqual a b = true) :
    a.status = b.status := by
  simp only [tasksAreEqual, Bool.and_eq_true, beq_iff_eq] at h
  tauto

theorem jsMapGet_mem : ∀ (cur : List Task) (k : String) (a : Task),
    jsMapGet (cur.map fun t => (t.id, t)) k = some a → a ∈ cur ∧ a.id = k := by
  intro cur
  induction cur using List.reverseRecOn with
  | nil => intro k a h; simp [jsMapGet] at h
  | append_singleton l x ih =>
    intro k a h
    rw [List.map_append] at h
    simp only [List.map_cons, List.map_nil] at h
    rw [jsMapGet_append_single] at h
    by_cases hbe : (x.id == k) = true
    · rw [if_pos hbe] at h
      have hax : a = x := by injection h with h2; exact h2.symm
      subst hax
      exact ⟨by simp, beq_iff_eq.mp hbe⟩
    · rw [if_neg hbe] at h
      obtain ⟨hm, hk⟩ := ih k a h
      exact ⟨by simp [hm], hk⟩

theorem mergeElem_eq_none {cur : List Task} {b : Task}
    (h : jsMapGet (cur.map fun t => (t.id, t)) b.id = none) :
    mergeElem cur b = (b, true) := by
  simp [mergeElem, h]

theorem mergeElem_eq_found_eq {cur : List Task} {b a : Task}
    (h : jsMapGet (cur.map fun t => (t.id, t)) b.id = some a)
    (he : tasksAreEqual a b = true) :
    mergeElem cur b = (a, false) := by
  simp [mergeElem, h, he]

theorem mergeElem_eq_found_ne {cur : List Task} {b a : Task}
    (h : jsMapGet (cur.map fun t => (t.id, t)) b.id = some a)
    (he : ¬ tasksAreEqual a b = true) :
    mergeElem cur b = (b, true) := by
  simp [mergeElem, h, he]

theorem mergeElem_fst_id (cur : List Task) (b : Task) :
    (mergeElem cur b).1.id = b.id := by
  rcases h : jsMapGet (cur.map fun t => (t.id, t)) b.id with _ | a
  · rw [mergeElem_eq_none h]
  · by_cases he : tasksAreEqual a b = true
    · rw [mergeElem_eq_found_eq h he]
      exact (jsMapGet_mem cur b.id a h).2
    · rw [mergeElem_eq_found_ne h he]

theorem mergeElem_fst_status (cur : List Task) (b : Task) :
    (mergeElem cur b).1.status = b.status := by
  rcases h : jsMapGet (cur.map fun t => (t.id, t)) b.id with _ | a
  · rw [mergeElem_eq_none h]
  · by_cases he : tasksAreEqual a b = true
    · rw [mergeElem_eq_found_eq h he]
      exact tasksAreEqual_status he
    · rw [mergeElem_eq_found_ne h he]

theorem mergeElem_fst_mem (cur : List Task) (b : Task) :
    (mergeElem cur b).1 ∈ cur ∨ (mergeElem cur b).1 = b := by
  rcases h : jsMapGet (cur.map fun t => (t.id, t)) b.id with _ | a
  · rw [mergeElem_eq_none h]
    right; rfl
  · by_cases he : tasksAreEqual a b = true
    · rw [mergeElem_eq_found_eq h he]
      exact Or.inl (jsMapGet_mem cur b.id a h).1
    · rw [mergeElem_eq_found_ne h he]
      right; rfl

theorem mergeElem_flag_false (cur : List Task) (b : Task)
    (h : (mergeElem cur b).2 = false) :
    jsMapGet (cur.map fun t => (t.id, t)) b.id = some (mergeElem cur b).1 ∧
    tasksAreEqual (mergeElem cur b).1 b = true := by
  rcases hlk : jsMapGet (cur.map fun t => (t.id, t)) b.id with _ | a
  · rw [mergeElem_eq_none hlk] at h
    cases h
  · by_cases he : tasksAreEqual a b = true
    · rw [mergeElem_eq_found_eq hlk he]
      exact ⟨hlk, he⟩
    · rw [mergeElem_eq_found_ne hlk he] at h
      cases h

theorem mergeTaskUpdates_cases (cur ns : List Task) :
    mergeTaskUpdates cur ns = cur ∨
    ((mergeTaskUpdates cur ns).map fun t => t.id) = ns.map fun t => t.id := by
  unfold mergeTaskUpdates
  by_cases hl : cur.length ≠ ns.length
  · rw [if_pos hl]; right; rfl
  · rw [if_neg hl]
    by_cases ha : ((mergePairs cur ns).any fun p => p.2) = true
    · rw [if_pos ha]; right
      unfold mergePairs
      rw [List.map_map, List.map_map]
      exact List.map_congr_left fun b _ => mergeElem_fst_id cur b
    · rw [if_neg ha]; left; rfl

theorem mergeTaskUpdates_mem (cur ns : List Task) :
    ∀ t ∈ mergeTaskUpdates cur ns, t ∈ cur ∨ t ∈ ns := by
  unfold mergeTaskUpdates
  by_cases hl : cur.length ≠ ns.length
  · rw [if_pos hl]; intro t ht; exact Or.inr ht
  · rw [if_neg hl]
    by_cases ha : ((mergePairs cur ns).any fun p => p.2) = true
    · rw [if_pos ha]
      intro t ht
      rw [List.mem_map] at ht
      obtain ⟨p, hp, rfl⟩ := ht
      unfold mergePairs at hp
      rw [List.mem_map] at hp
      obtain ⟨b, hb, rfl⟩ := hp
      rcases mergeElem_fst_mem cur b with hm | hm
      · exact Or.inl hm
      · right; rw [hm]; exact hb
    · rw [if_neg ha]
      intro t ht; exact Or.inl ht

theorem mergeTaskUpdates_covers (cur ns : List Task) :
    ∀ u ∈ ns, ∃ t ∈ mergeTaskUpdates cur ns, t.id = u.id ∧ t.status = u.status := by
  unfold mergeTaskUpdates
  by_cases hl : cur.length ≠ ns.length
  · rw [if_pos hl]
    intro u hu; exact ⟨u, hu, rfl, rfl⟩
  · rw [if_neg hl]
    by_cases ha : ((mergePairs cur ns).any fun p => p.2) = true
    · rw [if_pos ha]
      intro u hu
      refine ⟨(mergeElem cur u).1, ?_, mergeElem_fst_id cur u,
        mergeElem_fst_status cur u⟩
      rw [List.mem_map]
      refine ⟨mergeElem cur u, ?_, rfl⟩
      unfold mergePairs
      exact List.mem_map_of_mem _ hu
    · rw [if_neg ha]
      intro u hu
      have hanyf : ((mergePairs cur ns).any fun p => p.2) = false :=
        Bool.eq_false_iff.mpr ha
      have hflag : (mergeElem cur u).2 = false :=
        Bool.eq_false_iff.mpr (List.any_eq_false.mp hanyf (mergeElem cur u)
          (by unfold mergePairs; exact List.mem_map_of_mem _ hu))
      obtain ⟨hlk, he⟩ := mergeElem_flag_false cur u hflag
      obtain ⟨hm, hkid⟩ := jsMapGet_mem cur u.id _ hlk
      exact ⟨(mergeElem cur u).1, hm, hkid, tasksAreEqual_status he⟩

theorem subset_rev_of_nodup {l₁ l₂ : List String} (h₁ : l₁.Nodup)
    (h₂ : l₂.Nodup) (hs : l₁ ⊆ l₂) (hl : l₂.length ≤ l₁.length) : l₂ ⊆ l₁ := by
  have hsub : l₁.toFinset ⊆ l₂.toFinset := by
    intro a ha
    rw [List.mem_toFinset] at ha ⊢
    exact hs ha
  have hc1 : l₁.toFinset.card = l₁.length := List.toFinset_card_of_nodup h₁
  have hc2 : l₂.toFinset.card = l₂.length := List.toFinset_card_of_nodup h₂
  have heq : l₁.toFinset = l₂.toFinset :=
    Finset.eq_of_subset_of_card_le hsub (by omega)
  intro a ha
  have : a ∈ l₂.toFinset := List.mem_toFinset.mpr ha
  rw [← heq] at this
  exact List.mem_toFinset.mp this

theorem mergeTaskUpdates_others (cur ns : List Task)
    (hc : (cur.map fun t => t.id).Nodup) (hn : (ns.map fun t => t.id).Nodup) :
    ∀ t ∈ mergeTaskUpdates cur ns, ∃ u ∈ ns, u.id = t.id ∧ u.status = t.status := by
  unfold mergeTaskUpdates
  by_cases hl : cur.length ≠ ns.length
  · rw [if_pos hl]
    intro t ht; exact ⟨t, ht, rfl, rfl⟩
  · rw [if_neg hl]
    by_cases ha : ((mergePairs cur ns).any fun p => p.2) = true
    · rw [if_pos ha]
      intro t ht
      rw [List.mem_map] at ht
      obtain ⟨p, hp, rfl⟩ := ht
      unfold mergePairs at hp
      rw [List.mem_map] at hp
      obtain ⟨b, hb, rfl⟩ := hp
      exact ⟨b, hb, (mergeElem_fst_id cur b).symm, (mergeElem_fst_status cur b).symm⟩
    · rw [if_neg ha]
      intro t ht
      have hflags : ∀ u ∈ ns, (mergeElem cur u).2 = false := by
        intro u hu
        exact Bool.eq_false_iff.mpr
          (List.any_eq_false.mp (Bool.eq_false_iff.mpr ha) (mergeElem cur u)
            (by unfold mergePairs; exact List.mem_map_of_mem _ hu))
      have hsubset : (ns.map fun t => t.id) ⊆ cur.map fun t => t.id := by
        intro k hk
        rw [List.mem_map] at hk
        obtain ⟨u, hu, rfl⟩ := hk
        obtain ⟨hlk, _⟩ := mergeElem_flag_false cur u (hflags u hu)
        obtain ⟨hm, hkid⟩ := jsMapGet_mem cur u.id _ hlk
        rw [List.mem_map]
        exact ⟨_, hm, hkid⟩
      have hlen : cur.length = ns.length := not_ne_iff.mp hl
      have hrev := subset_rev_of_nodup hn hc hsubset (by simp [hlen])
      have htid : t.id ∈ ns.map fun t => t.id :=
        hrev (List.mem_map_of_mem _ ht)
      rw [List.mem_map] at htid
      obtain ⟨u, hu, huid⟩ := htid
      obtain ⟨hlk, he⟩ := mergeElem_flag_false cur u (hflags u hu)
      have hlkt : jsMapGet (cur.map fun t => (t.id, t)) t.id = some t :=
        jsMapGet_nodup cur t hc ht
      rw [huid, hlkt] at hlk
      have helem : (mergeElem cur u).1 = t := by
        injection hlk with h2; exact h2.symm
      rw [helem] at he
      exact ⟨u, hu, huid, (tasksAreEqual_status he).symm⟩

theorem overrideStatus_id (aid ns : String) (t : Task) :
    (overrideStatus aid ns t).id = t.id := by
  unfold overrideStatus
  by_cases h : (t.id == aid) = true <;> simp [h]

theorem override_map_ids (aid ns : String) (snap : List Task) :
    ((snap.map (overrideStatus aid ns)).map fun t => t.id) =
      snap.map fun t => t.id := by
  rw [List.map_map]
  exact List.map_congr_left fun t _ => overrideStatus_id aid ns t

theorem override_map_status (aid ns : String) (snap : List Task) :
    ∀ u ∈ snap.map (overrideStatus aid ns), u.id = aid → u.status = ns := by
  intro u hu huid
  rw [List.mem_map] at hu
  obtain ⟨w, hw, rfl⟩ := hu
  by_cases hwid : (w.id == aid) = true
  · simp [overrideStatus, hwid]
  · rw [overrideStatus_id] at huid
    exact absurd (beq_iff_eq.mpr huid) hwid

theorem override_map_untouched (aid ns : String) (snap : List Task) :
    ∀ u ∈ snap.map (overrideStatus aid ns), u.id ≠ aid → u ∈ snap := by
  intro u hu hune
  rw [List.mem_map] at hu
  obtain ⟨w, hw, rfl⟩ := hu
  by_cases hwid : (w.id == aid) = true
  · exfalso
    apply hune
    simp only [overrideStatus, hwid, if_true, if_pos]
    exact beq_iff_eq.mp hwid
  · have : overrideStatus aid ns w = w := by simp [overrideStatus, hwid]
    rw [this]
    exact hw

theorem override_map_exists (aid ns : String) (snap : List Task)
    (h : ∃ u ∈ snap, u.id = aid) :
    ∃ u ∈ snap.map (overrideStatus aid ns), u.id = aid := by
  obtain ⟨u, hu, huid⟩ := h
  exact ⟨overrideStatus aid ns u, List.mem_map_of_mem _ hu,
    (overrideStatus_id aid ns u).trans huid⟩

theorem find?_id_eq_some {aid : String} {cur : List Task}
    (hmem : ∃ t ∈ cur, t.id = aid) :
    ∃ d, (cur.find? fun t => t.id == aid) = some d ∧ d.id = aid ∧ d ∈ cur := by
  obtain ⟨t0, ht0, hid0⟩ := hmem
  have hfs : (cur.find? fun t => t.id == aid).isSome := by
    rw [List.find?_isSome]
    exact ⟨t0, ht0, by simp [hid0]⟩
  obtain ⟨d, hd⟩ := Option.isSome_iff_exists.mp hfs
  have hp := List.find?_some hd
  exact ⟨d, hd, beq_iff_eq.mp hp, List.mem_of_find?_eq_some hd⟩

theorem applyDragOverride_none_found {aid : String} {cur : List Task}
    (hfd : (cur.find? fun t => t.id == aid) = none) (snap : List Task) :
    applyDragOverride (some aid) cur snap = snap := by
  simp [applyDragOverride, hfd]

theorem applyDragOverride_found {aid : String} {cur : List Task} {d : Task}
    (hfd : (cur.find? fun t => t.id == aid) = some d) (snap : List Task) :
    applyDragOverride (some aid) cur snap =
      snap.map (overrideStatus aid d.status) := by
  simp [applyDragOverride, hfd]

/-- One snapshot application while a drag is active keeps the dragged
task's local status and keeps the dragged task present. -/
theorem handle_drag_invariant (aid S : String) (cur snap : List Task)
    (hstat : ∀ t ∈ cur, t.id = aid → t.status = S)
    (hmem : ∃ t ∈ cur, t.id = aid)
    (hsnap : ∃ t ∈ snap, t.id = aid) :
    (∀ t ∈ handleTasksUpdateTasks (some aid) cur snap,
       t.id = aid → t.status = S) ∧
    (∃ t ∈ handleTasksUpdateTasks (some aid) cur snap, t.id = aid) := by
  obtain ⟨d, hd, hdid, hdmem⟩ := find?_id_eq_some hmem
  have hdS : d.status = S := hstat d hdmem hdid
  have hrw : handleTasksUpdateTasks (some aid) cur snap =
      mergeTaskUpdates cur (snap.map (overrideStatus aid d.status)) := by
    unfold handleTasksUpdateTasks
    rw [applyDragOverride_found hd]
  rw [hrw]
  constructor
  · intro t ht htid
    rcases mergeTaskUpdates_mem _ _ t ht with hm | hm
    · exact hstat t hm htid
    · exact (override_map_status aid d.status snap t hm htid).trans hdS
  · obtain ⟨u', hu', hu'id⟩ := override_map_exists aid d.status snap hsnap
    obtain ⟨t, htm, htid, _⟩ := mergeTaskUpdates_covers cur _ u' hu'
    exact ⟨t, htm, htid.trans hu'id⟩

/-- One snapshot application preserves pairwise-distinct ids. -/
theorem handle_drag_nodup (aid : String) (cur snap : List Task)
    (hc : (cur.map fun t => t.id).Nodup)
    (hs : (snap.map fun t => t.id).Nodup) :
    ((handleTasksUpdateTasks (some aid) cur snap).map fun t => t.id).Nodup := by
  rcases hfd : cur.find? fun t => t.id == aid with _ | d
  · have hrw : handleTasksUpdateTasks (some aid) cur snap =
        mergeTaskUpdates cur snap := by
      unfold handleTasksUpdateTasks
      rw [applyDragOverride_none_found hfd]
    rw [hrw]
    rcases mergeTaskUpdates_cases cur snap with hcs | hcs
    · rw [hcs]; exact hc
    · rw [hcs]; exact hs
  · have hrw : handleTasksUpdateTasks (some aid) cur snap =
        mergeTaskUpdates cur (snap.map (overrideStatus aid d.status)) := by
      unfold handleTasksUpdateTasks
      rw [applyDragOverride_found hfd]
    rw [hrw]
    rcases mergeTaskUpdates_cases cur (snap.map (overrideStatus aid d.status))
      with hcs | hcs
    · rw [hcs]; exact hc
    · rw [hcs, override_map_ids]; exact hs

/-- One snapshot application takes the statuses of all non-dragged tasks
from the snapshot. -/
theorem handle_drag_others (aid : String) (cur snap : List Task)
    (hc : (cur.map fun t => t.id).Nodup)
    (hs : (snap.map fun t => t.id).Nodup) :
    ∀ t ∈ handleTasksUpdateTasks (some aid) cur snap, t.id ≠ aid →
      ∃ u ∈ snap, u.id = t.id ∧ u.status = t.status := by
  rcases hfd : cur.find? fun t => t.id == aid with _ | d
  · have hrw : handleTasksUpdateTasks (some aid) cur snap =
        mergeTaskUpdates cur snap := by
      unfold handleTasksUpdateTasks
      rw [applyDragOverride_none_found hfd]
    rw [hrw]
    exact fun t ht _ => mergeTaskUpdates_others cur snap hc hs t ht
  · have hrw : handleTasksUpdateTasks (some aid) cur snap =
        mergeTaskUpdates cur (snap.map (overrideStatus aid d.status)) := by
      unfold handleTasksUpdateTasks
      rw [applyDragOverride_found hfd]
    rw [hrw]
    intro t ht htne
    have hs' : ((snap.map (overrideStatus aid d.status)).map fun t => t.id).Nodup := by
      rw [override_map_ids]; exact hs
    obtain ⟨u', hu', huid, hust⟩ :=
      mergeTaskUpdates_others cur _ hc hs' t ht
    have hune : u'.id ≠ aid := by rw [huid]; exact htne
    exact ⟨u', override_map_untouched aid d.status snap u' hu' hune, huid, hust⟩

/-- The drag invariant holds through any number of consecutive incoming
snapshots, and the final list takes non-dragged statuses from the last
snapshot. -/
theorem foldl_drag_master (aid S : String) :
    ∀ (snaps : List (List Task)) (cur : List Task),
      (∀ t ∈ cur, t.id = aid → t.status = S) →
      (∃ t ∈ cur, t.id = aid) →
      ((cur.map fun t => t.id).Nodup) →
      (∀ snap ∈ snaps, ∃ t ∈ snap, t.id = aid) →
      (∀ snap ∈ snaps, (snap.map fun t => t.id).Nodup) →
      (∀ t ∈ snaps.foldl (fun c s => handleTasksUpdateTasks (some aid) c s) cur,
         t.id = aid → t.status = S) ∧
      (∃ t ∈ snaps.foldl (fun c s => handleTasksUpdateTasks (some aid) c s) cur,
         t.id = aid) ∧
      (∀ last, snaps.getLast? = some last →
        ∀ t ∈ snaps.foldl (fun c s => handleTasksUpdateTasks (some aid) c s) cur,
          t.id ≠ aid → ∃ u ∈ last, u.id = t.id ∧ u.status = t.status) := by
  intro snaps
  induction snaps with
  | nil =>
    intro cur h1 h2 _ _ _
    refine ⟨h1, h2, ?_⟩
    intro last hlast
    cases hlast
  | cons s rest ih =>
    intro cur h1 h2 h3 h4 h5
    have hss : ∃ t ∈ s, t.id = aid := h4 s (List.mem_cons_self s rest)
    have hsn : (s.map fun t => t.id).Nodup := h5 s (List.mem_cons_self s rest)
    have hstep := handle_drag_invariant aid S cur s h1 h2 hss
    have hnd := handle_drag_nodup aid cur s h3 hsn
    have hih := ih (handleTasksUpdateTasks (some aid) cur s) hstep.1 hstep.2 hnd
      (fun snap hsnap => h4 snap (List.mem_cons_of_mem s hsnap))
      (fun snap hsnap => h5 snap (List.mem_cons_of_mem s hsnap))
    rw [List.foldl_cons]
    refine ⟨hih.1, hih.2.1, ?_⟩
    intro last hlast
    cases rest with
    | nil =>
      have hlasts : s = last := by simpa using hlast
      subst hlasts
      simp only [List.foldl_nil]
      exact fun t ht htne => handle_drag_others aid cur s h3 hsn t ht htne
    | cons r2 rs =>
      have hlast' : (r2 :: rs).getLast? = some last := by
        rw [List.getLast?_cons_cons] at hlast
        exact hlast
      exact hih.2.2 last hlast'

/-- C4: while a drag is locally active (active id `aid`, local optimistic
status `S`, the dragged task present in the local list, task ids pairwise
distinct), processing any number of consecutive incoming snapshots — each
containing the dragged task — yields a merged list in which every task
with the dragged id carries the local status `S` (never the snapshot's
status), the dragged task is still present, and every other task's status
comes from the last snapshot's id-matching task. -/
theorem claim_C4_drag_override (aid S : String) (cur : List Task)
    (snaps : List (List Task))
    (h1 : (cur.all fun t => !(t.id == aid) || (t.status == S)) = true)
    (h2 : (cur.any fun t => t.id == aid) = true)
    (h3 : (cur.map fun t => t.id).Nodup)
    (h4 : (snaps.all fun snap => snap.any fun t => t.id == aid) = true)
    (h5 : ∀ snap ∈ snaps, (snap.map fun t => t.id).Nodup) :
    ((snaps.foldl (fun c s => handleTasksUpdateTasks (some aid) c s) cur).all
      (fun t => !(t.id == aid) || (t.status == S)) = true) ∧
    ((snaps.foldl (fun c s => handleTasksUpdateTasks (some aid) c s) cur).any
      (fun t => t.id == aid) = true) ∧
    ((match snaps.getLast? with
      | none => true
      | some last =>
        (snaps.foldl (fun c s => handleTasksUpdateTasks (some aid) c s) cur).all
          fun t => (t.id == aid) ||
            (last.any fun u => (u.id == t.id) && (u.status == t.status))) = true) := by
  have p1 : ∀ t ∈ cur, t.id = aid → t.status = S := by
    intro t ht htid
    have hb := List.all_eq_true.mp h1 t ht
    simp only [htid, beq_self_eq_true, Bool.not_true, Bool.false_or,
      beq_iff_eq] at hb
    exact hb
  have p2 : ∃ t ∈ cur, t.id = aid := by
    simpa only [List.any_eq_true, beq_iff_eq] using h2
  have p4 : ∀ snap ∈ snaps, ∃ t ∈ snap, t.id = aid := by
    intro snap hsnap
    have hb := List.all_eq_true.mp h4 snap hsnap
    simpa only [List.any_eq_true, beq_iff_eq] using hb
  obtain ⟨P1, P2, P3⟩ := foldl_drag_master aid S snaps cur p1 p2 h3 p4 h5
  refine ⟨?_, ?_, ?_⟩
  · rw [List.all_eq_true]
    intro t ht
    by_cases htid : t.id = aid
    · simp [htid, P1 t ht htid]
    · simp [htid]
  · rw [List.any_eq_true]
    obtain ⟨t, ht, htid⟩ := P2
    exact ⟨t, ht, by simp [htid]⟩
  · rcases hl : snaps.getLast? with _ | last
    · rfl
    · rw [List.all_eq_true]
      intro t ht
      by_cases htid : t.id = aid
      · simp [htid]
      · obtain ⟨u, hu, huid, hust⟩ := P3 last hl t ht htid
        have : (last.any fun u => (u.id == t.id) && (u.status == t.status)) = true := by
          rw [List.any_eq_true]
          exact ⟨u, hu, by simp [huid, hust]⟩
        simp [this]

theorem claim_C4_drag_override_witness :
    (([sampleTaskMoved].all fun t =>
        !(t.id == "t1") || (t.status == "in_progress")) = true ∧
     ([sampleTaskMoved].any fun t => t.id == "t1") = true ∧
     ([sampleTaskMoved].map fun t => t.id).Nodup ∧
     ([[sampleTask], [sampleTask]].all fun snap =>
        snap.any fun t => t.id == "t1") = true ∧
     (∀ snap ∈ [[sampleTask], [sampleTask]],
        (snap.map fun t => t.id).Nodup)) ∧
    ((([[sampleTask], [sampleTask]].foldl
        (fun c s => handleTasksUpdateTasks (some "t1") c s) [sampleTaskMoved]).all
        (fun t => !(t.id == "t1") || (t.status == "in_progress")) = true) ∧
     (([[sampleTask], [sampleTask]].foldl
        (fun c s => handleTasksUpdateTasks (some "t1") c s) [sampleTaskMoved]).any
        (fun t => t.id == "t1") = true) ∧
     ((match [[sampleTask], [sampleTask]].getLast? with
       | none => true
       | some last =>
         ([[sampleTask], [sampleTask]].foldl
           (fun c s => handleTasksUpdateTasks (some "t1") c s) [sampleTaskMoved]).all
           fun t => (t.id == "t1") ||
             (last.any fun u => (u.id == t.id) && (u.status == t.status))) = true)) :=
  ⟨⟨by decide, by decide, by decide, by decide, by decide⟩,
   claim_C4_drag_override "t1" "in_progress" [sampleTaskMoved]
     [[sampleTask], [sampleTask]]
     (by decide) (by decide) (by decide) (by decide) (by decide)⟩

/-! Teardown and write-safety lemmas. -/

theorem safeEnqueue_closed {c : ConnState} (h : c.isClosed = true) :
    safeEnqueue c = (false, c) := by
  simp [safeEnqueue, h]

theorem safeEnqueue_transport_closed {c : ConnState} (h1 : c.isClosed = false)
    (h2 : c.transportOpen = false) :
    safeEnqueue c = (false, { c with isClosed := true }) := by
  simp [safeEnqueue, h1, h2]

theorem pollTick_closed (g : ServerGlobal) {c : ConnState}
    (tasks : List Task) (watcher : WatcherConfig) (h : c.isClosed = true) :
    pollTick g c tasks watcher = (g, { c with timerActive := false }, []) := by
  simp [pollTick, h]

theorem pollHeartbeat_transport_closed {g : ServerGlobal} {c : ConnState}
    (acc : List SSEEvent) (h1 : c.isClosed = false) (h2 : c.transportOpen = false) :
    pollHeartbeat g c acc = (g, { c with isClosed := true }, acc) := by
  rw [pollHeartbeat, safeEnqueue_transport_closed h1 h2]
  simp

theorem pollWatcherStep_transport_closed {g : ServerGlobal} {c : ConnState}
    (w : WatcherConfig) (acc : List SSEEvent)
    (h1 : c.isClosed = false) (h2 : c.transportOpen = false) :
    pollWatcherStep g c w acc = (g, { c with isClosed := true }, acc) := by
  simp only [pollWatcherStep]
  by_cases hw : watcherHash w ≠ g.lastWatcherHash
  · rw [if_pos hw, safeEnqueue_transport_closed h1 h2]
  · rw [if_neg hw]
    exact pollHeartbeat_transport_closed acc h1 h2

theorem pollTick_transport_closed (g : ServerGlobal) {c : ConnState}
    (tasks : List Task) (watcher : WatcherConfig)
    (h1 : c.isClosed = false) (h2 : c.transportOpen = false) :
    pollTick g c tasks watcher = (g, { c with isClosed := true }, []) := by
  simp only [pollTick, h1, Bool.false_eq_true, if_false]
  by_cases hEq : hashState (taskTriples tasks) ≠ g.lastTasksHash
  · rw [if_pos hEq, safeEnqueue_transport_closed h1 h2]
  · rw [if_neg hEq]
    exact pollWatcherStep_transport_closed watcher [] h1 h2

theorem stepAct_closed (g : ServerGlobal) {c : ConnState}
    (h : c.isClosed = true) (a : SSEAct) :
    (stepAct g c a).2.2 = [] ∧ (stepAct g c a).2.1.isClosed = true := by
  cases a with
  | abort => exact ⟨rfl, rfl⟩
  | cancel => exact ⟨rfl, rfl⟩
  | transportClose => exact ⟨rfl, h⟩
  | tick tasks watcher => rw [stepAct, pollTick_closed g tasks watcher h]; exact ⟨rfl, h⟩
  | tickFetchError => rw [stepAct, pollTickFetchError]; simp [h]

theorem runActs_closed : ∀ (acts : List SSEAct) (g : ServerGlobal)
    (c : ConnState), c.isClosed = true →
    (runActs g c acts).2.2 = [] ∧ (runActs g c acts).2.1.isClosed = true := by
  intro acts
  induction acts with
  | nil => intro g c h; exact ⟨rfl, h⟩
  | cons a rest ih =>
    intro g c h
    rw [runActs]
    rcases hstep : stepAct g c a with ⟨g1, c1, evs⟩
    have hcl := stepAct_closed g h a
    rw [hstep] at hcl
    rcases hrun : runActs g1 c1 rest with ⟨g2, c2, evs2⟩
    have hih := ih g1 c1 hcl.2
    rw [hrun] at hih
    simp only [hstep, hrun]
    have he1 : evs = [] := hcl.1
    have he2 : evs2 = [] := hih.1
    exact ⟨by rw [he1, he2]; rfl, hih.2⟩

/-- C6: no write ever reaches the transport after the connection's closed
flag is set — `safeEnqueue` checks the flag immediately before every write
and skips when closed, a write that fails because the transport closed
concurrently sets the flag and reports failure instead of raising, every
action sequence from a closed state produces no writes and stays closed,
the abort handler and the stream `cancel` callback both set the flag and
clear the poll timer, a tick from a closed state clears the timer and
writes nothing, and a tick whose write fails converges to the same state:
flag set, nothing written, the next tick clears the timer. -/
theorem claim_C6_no_write_after_close
    (g1 g2 g3 : ServerGlobal) (c1 c2 c3 : ConnState) (acts : List SSEAct)
    (tasks : List Task) (watcher : WatcherConfig)
    (h1 : c1.isClosed = true)
    (h2 : c3.isClosed = false) (h3 : c3.transportOpen = false) :
    (runActs g1 c1 acts).2.2 = [] ∧
    (runActs g1 c1 acts).2.1.isClosed = true ∧
    (stepAct g2 c2 SSEAct.abort).2.1.isClosed = true ∧
    (stepAct g2 c2 SSEAct.abort).2.1.timerActive = false ∧
    (stepAct g2 c2 SSEAct.cancel).2.1.isClosed = true ∧
    (stepAct g2 c2 SSEAct.cancel).2.1.timerActive = false ∧
    safeEnqueue c1 = (false, c1) ∧
    safeEnqueue c3 = (false, { c3 with isClosed := true }) ∧
    (pollTick g1 c1 tasks watcher).2.1.timerActive = false ∧
    (pollTick g1 c1 tasks watcher).2.2 = [] ∧
    (pollTick g3 c3 tasks watcher).2.2 = [] ∧
    (pollTick g3 c3 tasks watcher).2.1.isClosed = true ∧
    (pollTick (pollTick g3 c3 tasks watcher).1
      (pollTick g3 c3 tasks watcher).2.1 tasks watcher).2.1.timerActive = false ∧
    (pollTick (pollTick g3 c3 tasks watcher).1
      (pollTick g3 c3 tasks watcher).2.1 tasks watcher).2.2 = [] := by
  have hrun := runActs_closed acts g1 c1 h1
  have htr := pollTick_transport_closed g3 tasks watcher h2 h3
  have hcl3 : (pollTick g3 c3 tasks watcher).2.1.isClosed = true := by
    rw [htr]
  have hnext := pollTick_closed (pollTick g3 c3 tasks watcher).1
    tasks watcher hcl3
  refine ⟨hrun.1, hrun.2, rfl, rfl, rfl, rfl, safeEnqueue_closed h1,
    safeEnqueue_transport_closed h2 h3, ?_, ?_, ?_, hcl3, ?_, ?_⟩
  · rw [pollTick_closed g1 tasks watcher h1]
  · rw [pollTick_closed g1 tasks watcher h1]
  · rw [htr]
  · rw [hnext]
  · rw [hnext]

theorem claim_C6_no_write_after_close_witness :
    (((⟨true, true, true⟩ : ConnState).isClosed = true) ∧
     ((⟨false, true, false⟩ : ConnState).isClosed = false) ∧
     ((⟨false, true, false⟩ : ConnState).transportOpen = false)) ∧
    ((runActs ⟨"", ""⟩ ⟨true, true, true⟩
        [SSEAct.tick [sampleTask] sampleWatcher, SSEAct.abort]).2.2 = [] ∧
     (runActs ⟨"", ""⟩ ⟨true, true, true⟩
        [SSEAct.tick [sampleTask] sampleWatcher, SSEAct.abort]).2.1.isClosed = true ∧
     (stepAct ⟨"", ""⟩ connOpen SSEAct.abort).2.1.isClosed = true ∧
     (stepAct ⟨"", ""⟩ connOpen SSEAct.abort).2.1.timerActive = false ∧
     (stepAct ⟨"", ""⟩ connOpen SSEAct.cancel).2.1.isClosed = true ∧
     (stepAct ⟨"", ""⟩ connOpen SSEAct.cancel).2.1.timerActive = false ∧
     safeEnqueue ⟨true, true, true⟩ = (false, ⟨true, true, true⟩) ∧
     safeEnqueue ⟨false, true, false⟩ =
       (false, { (⟨false, true, false⟩ : ConnState) with isClosed := true }) ∧
     (pollTick ⟨"", ""⟩ ⟨true, true, true⟩ [sampleTask] sampleWatcher).2.1.timerActive = false ∧
     (pollTick ⟨"", ""⟩ ⟨true, true, true⟩ [sampleTask] sampleWatcher).2.2 = [] ∧
     (pollTick ⟨"", ""⟩ ⟨false, true, false⟩ [sampleTask] sampleWatcher).2.2 = [] ∧
     (pollTick ⟨"", ""⟩ ⟨false, true, false⟩ [sampleTask] sampleWatcher).2.1.isClosed = true ∧
     (pollTick (pollTick ⟨"", ""⟩ ⟨false, true, false⟩ [sampleTask] sampleWatcher).1
       (pollTick ⟨"", ""⟩ ⟨false, true, false⟩ [sampleTask] sampleWatcher).2.1
       [sampleTask] sampleWatcher).2.1.timerActive = false ∧
     (pollTick (pollTick ⟨"", ""⟩ ⟨false, true, false⟩ [sampleTask] sampleWatcher).1
       (pollTick ⟨"", ""⟩ ⟨false, true, false⟩ [sampleTask] sampleWatcher).2.1
       [sampleTask] sampleWatcher).2.2 = []) :=
  ⟨⟨rfl, rfl, rfl⟩,
   claim_C6_no_write_after_close ⟨"", ""⟩ ⟨"", ""⟩ ⟨"", ""⟩
     ⟨true, true, true⟩ connOpen ⟨false, true, false⟩
     [SSEAct.tick [sampleTask] sampleWatcher, SSEAct.abort]
     [sampleTask] sampleWatcher rfl rfl rfl⟩

end SimonTasks
